import Mathlib

/-!
Verification of the transwacom peer runtime against its specification.

Each Python module relevant to the checked claims is shallowly embedded:

* `transnetwork.py` — `NetworkProtocol.pack_message` / `unpack_messages`
  (newline-delimited JSON framing) and the consumer server's
  `handle_client` authorisation reply.
* `host_input.py` — `InputCapture._capture_loop` (event batching),
  `InputCapture._event_code_to_string` (code translation) and
  `HostInputManager.start_capture` (single ownership of a device path).
* `consumer_device_emulation.py` — `WacomVirtualDevice.process_events` and
  `_parse_event_code`.
* `config_manager.py` — trusted-host registry queries.
* `tray_app_unified.py` — the `auth_callback` auto-accept path and the
  `check_stale_consumers` sweep.

Bytes are modelled as `Nat` (the newline byte is `10`), Python strings as
`String`, Python `time.time()` values as `ℚ`.  The external `json.dumps` /
`json.loads` pair is abstracted as an encoder/decoder parameter; the
`evdev.ecodes` attribute table is modelled by a finite association list in
`dir()` (alphabetical) order.  Python `while` loops are embedded with an
explicit fuel argument equal to the loop variant, so every definition is
executable by the kernel.
-/

namespace Transwacom

/-! ### `transnetwork.py`: `NetworkProtocol` framing -/

/-- `NetworkProtocol.pack_message`: `json.dumps(message).encode('utf-8') + b'\n'`.
The external JSON/UTF-8 encoding is the parameter `enc`. -/
def pack_message {Msg : Type} (enc : Msg → List Nat) (m : Msg) : List Nat :=
  enc m ++ [10]

/-- Result of one `unpack_messages` call (or of a whole chunk sequence):
the retained buffer, the decoded messages in order, and the lines dropped
with a `Protocol error` warning. -/
structure UnpackResult (Msg : Type) where
  buffer : List Nat
  messages : List Msg
  dropped : List (List Nat)
  deriving DecidableEq

/-- The body of one iteration of the `unpack_messages` loop after the buffer
has been split at the first newline: `if line:` skip empty lines, then
`json.loads` either succeeds (append the message) or raises (print the
`Protocol error` warning and drop the line). -/
def lineStep {Msg : Type} (dec : List Nat → Option Msg) (line : List Nat)
    (res : UnpackResult Msg) : UnpackResult Msg :=
  if line = [] then res
  else
    match dec line with
    | some m => ⟨res.buffer, m :: res.messages, res.dropped⟩
    | none => ⟨res.buffer, res.messages, line :: res.dropped⟩

/-- The `while b'\n' in self.buffer` loop of `NetworkProtocol.unpack_messages`,
with fuel bounding the number of iterations.  Each iteration splits the
buffer at the first newline (`line, self.buffer = self.buffer.split(b'\n', 1)`)
and runs `lineStep` on the prefix. -/
def unpackLoopFuel {Msg : Type} (dec : List Nat → Option Msg) :
    Nat → List Nat → UnpackResult Msg
  | 0, buf => ⟨buf, [], []⟩
  | fuel+1, buf =>
    if 10 ∈ buf then
      lineStep dec (buf.takeWhile (fun b => b ≠ 10))
        (unpackLoopFuel dec fuel ((buf.dropWhile (fun b => b ≠ 10)).tail))
    else ⟨buf, [], []⟩

/-- The loop of `unpack_messages` run to completion on a buffer: the loop
variant (the buffer length) is a sufficient fuel bound, since each
iteration removes at least the newline byte. -/
def unpackLoop {Msg : Type} (dec : List Nat → Option Msg) (buf : List Nat) :
    UnpackResult Msg :=
  unpackLoopFuel dec buf.length buf

/-- `NetworkProtocol.unpack_messages`: append `data` to the retained buffer
and run the splitting loop. -/
def unpack_messages {Msg : Type} (dec : List Nat → Option Msg)
    (buffer data : List Nat) : UnpackResult Msg :=
  unpackLoop dec (buffer ++ data)

/-- Sequencing two unpack results: the second result's buffer wins, message
and warning lists concatenate. -/
def UnpackResult.seq {Msg : Type} (a b : UnpackResult Msg) : UnpackResult Msg :=
  ⟨b.buffer, a.messages ++ b.messages, a.dropped ++ b.dropped⟩

/-- Feeding successive received chunks to the `unpack_messages` of one
`NetworkProtocol` instance, starting from the fresh state `self.buffer = b''`,
collecting all returned messages. -/
def processChunks {Msg : Type} (dec : List Nat → Option Msg)
    (chunks : List (List Nat)) : UnpackResult Msg :=
  chunks.foldl
    (fun acc chunk => acc.seq (unpack_messages dec acc.buffer chunk))
    ⟨[], [], []⟩

/-! Helper lemmas about the framing loop. -/

theorem rest_length_lt {buf : List Nat} (h : 10 ∈ buf) :
    ((buf.dropWhile (fun b => b ≠ 10)).tail).length < buf.length := by
  have hne : buf.dropWhile (fun b => b ≠ 10) ≠ [] := by
    intro hnil
    rw [List.dropWhile_eq_nil_iff] at hnil
    simpa using hnil 10 h
  have h1 : (buf.dropWhile (fun b => b ≠ 10)).length ≤ buf.length :=
    (List.dropWhile_sublist _).length_le
  have h2 : 0 < (buf.dropWhile (fun b => b ≠ 10)).length :=
    List.length_pos.mpr hne
  rw [List.length_tail]
  omega

theorem unpackLoopFuel_congr {Msg : Type} (dec : List Nat → Option Msg) :
    ∀ (n m : Nat) (buf : List Nat), buf.length ≤ n → buf.length ≤ m →
      unpackLoopFuel dec n buf = unpackLoopFuel dec m buf := by
  intro n
  induction n with
  | zero =>
    intro m buf hn _
    have hb : buf = [] := List.length_eq_zero.mp (Nat.le_zero.mp hn)
    subst hb
    cases m with
    | zero => rfl
    | succ m => simp [unpackLoopFuel]
  | succ n ih =>
    intro m buf hn hm
    cases m with
    | zero =>
      have hb : buf = [] := List.length_eq_zero.mp (Nat.le_zero.mp hm)
      subst hb
      simp [unpackLoopFuel]
    | succ m =>
      by_cases hmem : 10 ∈ buf
      · have hlt := rest_length_lt hmem
        simp only [unpackLoopFuel, if_pos hmem]
        rw [ih m _ (by omega) (by omega)]
      · simp only [unpackLoopFuel, if_neg hmem]

theorem unpackLoop_no_newline {Msg : Type} (dec : List Nat → Option Msg)
    {buf : List Nat} (h : 10 ∉ buf) : unpackLoop dec buf = ⟨buf, [], []⟩ := by
  cases buf with
  | nil => rfl
  | cons b bs =>
    show unpackLoopFuel dec (bs.length + 1) (b :: bs) = _
    simp only [unpackLoopFuel, if_neg h]

theorem unpackLoop_unfold {Msg : Type} (dec : List Nat → Option Msg)
    {buf : List Nat} (h : 10 ∈ buf) :
    unpackLoop dec buf =
      lineStep dec (buf.takeWhile (fun b => b ≠ 10))
        (unpackLoop dec ((buf.dropWhile (fun b => b ≠ 10)).tail)) := by
  have hpos : 0 < buf.length := by
    cases buf with
    | nil => cases h
    | cons b bs => simp
  obtain ⟨n, hn⟩ : ∃ n, buf.length = n + 1 := ⟨buf.length - 1, by omega⟩
  show unpackLoopFuel dec buf.length buf = _
  rw [hn]
  simp only [unpackLoopFuel, if_pos h]
  congr 1
  exact unpackLoopFuel_congr dec n _ _
    (by have := rest_length_lt h; omega) le_rfl

theorem takeWhile_newline_split {x y : List Nat} (hx : 10 ∉ x) :
    (x ++ 10 :: y).takeWhile (fun b => b ≠ 10) = x := by
  induction x with
  | nil =>
    rw [List.nil_append, List.takeWhile_cons]
    simp
  | cons a as ih =>
    have ha : a ≠ 10 := fun e => hx (e ▸ List.mem_cons_self a as)
    have has : 10 ∉ as := fun hm => hx (List.mem_cons_of_mem _ hm)
    rw [List.cons_append, List.takeWhile_cons, if_pos (by simpa using ha), ih has]

theorem dropWhile_newline_split {x y : List Nat} (hx : 10 ∉ x) :
    (x ++ 10 :: y).dropWhile (fun b => b ≠ 10) = 10 :: y := by
  induction x with
  | nil =>
    rw [List.nil_append, List.dropWhile_cons]
    simp
  | cons a as ih =>
    have ha : a ≠ 10 := fun e => hx (e ▸ List.mem_cons_self a as)
    have has : 10 ∉ as := fun hm => hx (List.mem_cons_of_mem _ hm)
    rw [List.cons_append, List.dropWhile_cons, if_pos (by simpa using ha), ih has]

theorem unpackLoop_cons_line {Msg : Type} (dec : List Nat → Option Msg)
    (x y : List Nat) (hx : 10 ∉ x) :
    unpackLoop dec (x ++ 10 :: y) = lineStep dec x (unpackLoop dec y) := by
  have hmem : 10 ∈ x ++ 10 :: y := List.mem_append_right x (List.mem_cons_self 10 y)
  rw [unpackLoop_unfold dec hmem, takeWhile_newline_split hx,
    dropWhile_newline_split hx]
  rfl

theorem lineStep_buffer {Msg : Type} (dec : List Nat → Option Msg)
    (x : List Nat) (res : UnpackResult Msg) :
    (lineStep dec x res).buffer = res.buffer := by
  unfold lineStep
  by_cases hx : x = []
  · simp [hx]
  · simp only [if_neg hx]
    cases dec x <;> rfl

theorem lineStep_seq {Msg : Type} (dec : List Nat → Option Msg)
    (x : List Nat) (a b : UnpackResult Msg) :
    lineStep dec x (a.seq b) = (lineStep dec x a).seq b := by
  unfold lineStep UnpackResult.seq
  by_cases hx : x = []
  · simp [hx]
  · simp only [if_neg hx]
    cases dec x <;> simp

theorem seq_assoc {Msg : Type} (a b c : UnpackResult Msg) :
    (a.seq b).seq c = a.seq (b.seq c) := by
  simp [UnpackResult.seq]

theorem seq_empty_left {Msg : Type} (b : UnpackResult Msg) :
    (UnpackResult.mk [] [] []).seq b = b := by
  simp [UnpackResult.seq]

theorem unpackLoop_buffer_no_newline {Msg : Type} (dec : List Nat → Option Msg) :
    ∀ (n : Nat) (buf : List Nat), buf.length ≤ n →
      10 ∉ (unpackLoop dec buf).buffer := by
  intro n
  induction n with
  | zero =>
    intro buf hn
    have hb : buf = [] := List.length_eq_zero.mp (Nat.le_zero.mp hn)
    subst hb
    intro hc
    cases hc
  | succ n ih =>
    intro buf hn
    by_cases hmem : 10 ∈ buf
    · have hlt := rest_length_lt hmem
      rw [unpackLoop_unfold dec hmem, lineStep_buffer]
      exact ih _ (by omega)
    · rw [unpackLoop_no_newline dec hmem]
      exact hmem

theorem newline_split {buf : List Nat} (h : 10 ∈ buf) :
    ∃ x y, 10 ∉ x ∧ buf = x ++ 10 :: y := by
  induction buf with
  | nil => cases h
  | cons a as ih =>
    by_cases ha : a = 10
    · exact ⟨[], as, by simp, by rw [ha, List.nil_append]⟩
    · have h' : 10 ∈ as := by
        rcases List.mem_cons.mp h with h1 | h1
        · exact absurd h1.symm ha
        · exact h1
      obtain ⟨x, y, hx, hxy⟩ := ih h'
      exact ⟨a :: x, y, by
        intro hc
        rcases List.mem_cons.mp hc with h1 | h1
        · exact ha h1.symm
        · exact hx h1, by rw [List.cons_append, hxy]⟩

theorem unpackLoop_append {Msg : Type} (dec : List Nat → Option Msg) :
    ∀ (n : Nat) (u v : List Nat), u.length ≤ n →
      unpackLoop dec (u ++ v) =
        (unpackLoop dec u).seq
          (unpackLoop dec ((unpackLoop dec u).buffer ++ v)) := by
  intro n
  induction n with
  | zero =>
    intro u v hn
    have hu : u = [] := List.length_eq_zero.mp (Nat.le_zero.mp hn)
    subst hu
    show unpackLoop dec ([] ++ v) =
      (UnpackResult.mk [] [] []).seq
        (unpackLoop dec ((UnpackResult.mk ([] : List Nat) [] []).buffer ++ v))
    simp [UnpackResult.seq]
  | succ n ih =>
    intro u v hn
    by_cases hmem : 10 ∈ u
    · obtain ⟨x, y, hx, hu⟩ := newline_split hmem
      subst hu
      have hylen : y.length ≤ n := by
        have := hn
        rw [List.length_append, List.length_cons] at this
        omega
      rw [List.append_assoc, List.cons_append]
      rw [unpackLoop_cons_line dec x (y ++ v) hx]
      rw [unpackLoop_cons_line dec x y hx]
      rw [ih y v hylen]
      rw [lineStep_seq, lineStep_buffer]
    · rw [unpackLoop_no_newline dec hmem]
      show unpackLoop dec (u ++ v) = UnpackResult.seq ⟨u, [], []⟩ (unpackLoop dec (u ++ v))
      simp [UnpackResult.seq]

theorem processChunks_foldl {Msg : Type} (dec : List Nat → Option Msg) :
    ∀ (chunks : List (List Nat)) (acc : UnpackResult Msg), 10 ∉ acc.buffer →
      chunks.foldl (fun acc chunk => acc.seq (unpack_messages dec acc.buffer chunk)) acc
        = acc.seq (unpackLoop dec (acc.buffer ++ chunks.flatten)) := by
  intro chunks
  induction chunks with
  | nil =>
    intro acc hacc
    rw [List.foldl_nil, List.flatten_nil, List.append_nil,
      unpackLoop_no_newline dec hacc]
    cases acc
    simp [UnpackResult.seq]
  | cons c cs ih =>
    intro acc hacc
    rw [List.foldl_cons]
    have hacc' : 10 ∉ (acc.seq (unpack_messages dec acc.buffer c)).buffer :=
      unpackLoop_buffer_no_newline dec (acc.buffer ++ c).length _ le_rfl
    rw [ih _ hacc']
    rw [List.flatten_cons, ← List.append_assoc]
    rw [unpackLoop_append dec (acc.buffer ++ c).length (acc.buffer ++ c) cs.flatten le_rfl]
    rw [← seq_assoc]
    rfl

theorem processChunks_eq {Msg : Type} (dec : List Nat → Option Msg)
    (chunks : List (List Nat)) :
    processChunks dec chunks = unpackLoop dec chunks.flatten := by
  unfold processChunks
  rw [processChunks_foldl dec chunks ⟨[], [], []⟩ (by intro hc; cases hc)]
  show (UnpackResult.mk [] [] []).seq (unpackLoop dec ([] ++ chunks.flatten)) = _
  rw [List.nil_append, seq_empty_left]

/-- A sequence of newline-terminated lines as one byte stream. -/
def linesJoin (ls : List (List Nat)) : List Nat :=
  (ls.map (fun l => l ++ [10])).flatten

theorem unpackLoop_linestream {Msg : Type} (dec : List Nat → Option Msg) :
    ∀ (ls : List (List Nat)), (∀ l ∈ ls, 10 ∉ l) →
      unpackLoop dec (linesJoin ls) =
        ⟨[], (ls.filter (fun l => decide (l ≠ []))).filterMap dec,
            (ls.filter (fun l => decide (l ≠ []))).filter (fun l => (dec l).isNone)⟩ := by
  intro ls
  induction ls with
  | nil => intro _; rfl
  | cons x xs ih =>
    intro h
    have hx : 10 ∉ x := h x (List.mem_cons_self x xs)
    have hxs : ∀ l ∈ xs, 10 ∉ l := fun l hl => h l (List.mem_cons_of_mem x hl)
    show unpackLoop dec (((x :: xs).map (fun l => l ++ [10])).flatten) = _
    rw [List.map_cons, List.flatten_cons, List.append_assoc, List.singleton_append]
    rw [unpackLoop_cons_line dec x _ hx]
    have hj : (List.map (fun l => l ++ [10]) xs).flatten = linesJoin xs := rfl
    rw [hj, ih hxs]
    by_cases hxe : x = []
    · subst hxe
      simp [lineStep]
    · cases hdx : dec x with
      | some m =>
        simp [lineStep, hxe, hdx, List.filter_cons, List.filterMap_cons]
      | none =>
        simp [lineStep, hxe, hdx, List.filter_cons, List.filterMap_cons]

theorem filterMap_dec_enc {Msg : Type} (enc : Msg → List Nat)
    (dec : List Nat → Option Msg) (hdec : ∀ m, dec (enc m) = some m)
    (M : List Msg) : (M.map enc).filterMap dec = M := by
  induction M with
  | nil => rfl
  | cons m ms ih => simp [List.filterMap_cons, hdec m, ih]

/-- **C1.** For every list of protocol messages `M`, feeding the concatenation
of `pack_message` applied to each element of `M` into `unpack_messages` of a
fresh `NetworkProtocol` — under any partition of that byte stream into
successive chunks across calls — returns exactly the messages of `M`, in
order (with an empty retained buffer and no dropped lines).  The external
JSON codec is abstracted as any `enc`/`dec` pair such that encodings are
newline-free, non-empty, and decoded back exactly. -/
theorem C1_framing_roundtrip {Msg : Type} (enc : Msg → List Nat)
    (dec : List Nat → Option Msg)
    (henc_nl : ∀ m, 10 ∉ enc m) (henc_ne : ∀ m, enc m ≠ [])
    (hdec : ∀ m, dec (enc m) = some m)
    (M : List Msg) (chunks : List (List Nat))
    (hpart : chunks.flatten = (M.map (pack_message enc)).flatten) :
    processChunks dec chunks = ⟨[], M, []⟩ := by
  rw [processChunks_eq, hpart]
  have hj : (M.map (pack_message enc)).flatten = linesJoin (M.map enc) := by
    unfold linesJoin pack_message
    rw [List.map_map]
    rfl
  rw [hj, unpackLoop_linestream dec (M.map enc) (by
    intro l hl
    obtain ⟨m, _, rfl⟩ := List.mem_map.mp hl
    exact henc_nl m)]
  have hfil : (M.map enc).filter (fun l => decide (l ≠ [])) = M.map enc :=
    List.filter_eq_self.mpr (by
      intro a ha
      obtain ⟨m, _, rfl⟩ := List.mem_map.mp ha
      simpa using henc_ne m)
  rw [hfil, filterMap_dec_enc enc dec hdec M]
  have hdrop : (M.map enc).filter (fun l => (dec l).isNone) = [] :=
    List.filter_eq_nil_iff.mpr (by
      intro a ha
      obtain ⟨m, _, rfl⟩ := List.mem_map.mp ha
      simp [hdec m])
  rw [hdrop]

/-- A concrete codec standing in for `json.dumps`/`json.loads` in witnesses:
message `n` is encoded as `n+1` copies of byte `65`. -/
def encNat (n : Nat) : List Nat := List.replicate (n + 1) 65

/-- The matching concrete decoder: a non-empty all-`65` line of length `k+1`
decodes to message `k`; anything else is malformed. -/
def decNat (l : List Nat) : Option Nat :=
  if l ≠ [] ∧ l.all (fun b => b == 65) then some (l.length - 1) else none

theorem decNat_encNat (n : Nat) : decNat (encNat n) = some n := by
  have h1 : encNat n ≠ [] := by
    simp [encNat, List.replicate_eq_nil_iff]
  have h2 : (encNat n).all (fun b => b == 65) = true := by
    rw [List.all_eq_true]
    intro b hb
    rw [List.eq_of_mem_replicate hb]
    rfl
  rw [decNat, if_pos ⟨h1, h2⟩]
  simp [encNat]

/-- Witness for C1: the stream for messages `[0, 1]` is `[65,10,65,65,10]`;
cut into chunks `[65]`, `[10,65]`, `[65,10]` it still decodes to `[0, 1]`. -/
theorem C1_framing_roundtrip_witness :
    processChunks decNat [[65], [10, 65], [65, 10]] = ⟨[], [0, 1], []⟩ :=
  C1_framing_roundtrip encNat decNat
    (fun n => by simp [encNat, List.mem_replicate])
    (fun n => by simp [encNat, List.replicate_eq_nil_iff])
    decNat_encNat [0, 1] [[65], [10, 65], [65, 10]] (by decide)

/-- **C6.** If a newline-delimited line received by `unpack_messages` is
malformed (the decoder rejects it), that line is dropped with a warning,
every well-formed message in the same and in subsequent input chunks is
still returned, and the connection is not terminated: for any chunking of
any stream of newline-terminated lines, the decoded messages are exactly
the decodable non-empty lines in order, the dropped lines are exactly the
undecodable non-empty lines, and the loop runs to completion leaving an
empty buffer. -/
theorem C6_malformed_line_dropped {Msg : Type} (dec : List Nat → Option Msg)
    (chunks ls : List (List Nat)) (hls : ∀ l ∈ ls, 10 ∉ l)
    (hpart : chunks.flatten = linesJoin ls) :
    processChunks dec chunks =
      ⟨[], (ls.filter (fun l => decide (l ≠ []))).filterMap dec,
          (ls.filter (fun l => decide (l ≠ []))).filter (fun l => (dec l).isNone)⟩ := by
  rw [processChunks_eq, hpart, unpackLoop_linestream dec ls hls]

/-- Witness for C6: stream `[65,10,66,10,65,65,10]` (lines `[65]`, `[66]`,
`[65,65]`, the middle one malformed for `decNat`), fed in two chunks: the
malformed line is dropped, messages `0` and `1` still come through. -/
theorem C6_malformed_line_dropped_witness :
    processChunks decNat [[65, 10, 66], [10, 65, 65, 10]] =
      ⟨[], [0, 1], [[66]]⟩ := by
  have h := C6_malformed_line_dropped decNat [[65, 10, 66], [10, 65, 65, 10]]
    [[65], [66], [65, 65]] (by decide) (by decide)
  rw [h]
  decide

/-! ### `evdev.ecodes` model and `host_input.py` code translation -/

def EV_SYN : Nat := 0
def EV_KEY : Nat := 1
def EV_REL : Nat := 2
def EV_ABS : Nat := 3

/-- Python `str.startswith`, modelled on the character lists. -/
def pyStartsWith (s pre : String) : Bool := pre.data.isPrefixOf s.data

/-- Model of the `evdev.ecodes` attribute table, restricted to the
input-code names the repository's device templates use, with the real Linux
input event code values.  `dir(ecodes)` enumerates attribute names in
alphabetical order, which this list follows, so `List.find?` over it is the
first match of the `for name in dir(ecodes)` scan. -/
def ecodesAttrs : List (String × Nat) := [
  ("ABS_DISTANCE", 25), ("ABS_HAT0X", 16), ("ABS_HAT0Y", 17),
  ("ABS_PRESSURE", 24), ("ABS_RX", 3), ("ABS_RY", 4), ("ABS_RZ", 5),
  ("ABS_TILT_X", 26), ("ABS_TILT_Y", 27), ("ABS_X", 0), ("ABS_Y", 1),
  ("ABS_Z", 2),
  ("BTN_A", 304), ("BTN_B", 305), ("BTN_MODE", 316), ("BTN_SELECT", 314),
  ("BTN_START", 315), ("BTN_STYLUS", 331), ("BTN_STYLUS2", 332),
  ("BTN_THUMBL", 317), ("BTN_THUMBR", 318), ("BTN_TL", 310), ("BTN_TL2", 312),
  ("BTN_TOOL_PEN", 320), ("BTN_TOOL_RUBBER", 321), ("BTN_TOUCH", 330),
  ("BTN_TR", 311), ("BTN_TR2", 313), ("BTN_X", 307), ("BTN_Y", 308),
  ("KEY_A", 30), ("KEY_B", 48), ("KEY_ESC", 1), ("KEY_SPACE", 57),
  ("REL_WHEEL", 8), ("REL_X", 0), ("REL_Y", 1),
  ("SYN_CONFIG", 1), ("SYN_DROPPED", 3), ("SYN_MT_REPORT", 2),
  ("SYN_REPORT", 0)]

/-- `for name in dir(ecodes): if name.startswith(pre) and
getattr(ecodes, name) == event_code: return name`. -/
def scanAttr (pre : String) (event_code : Nat) : Option String :=
  (ecodesAttrs.find? (fun nv => pyStartsWith nv.1 pre && nv.2 == event_code)).map
    (fun nv => nv.1)

/-- `InputCapture._event_code_to_string`: reverse lookup of the symbolic
name filtered by event-type class, with the per-class fallback strings of
the source (`f"ABS_{event_code}"` etc.) and the `TYPE_.._CODE_..` fallback
for types outside the four handled classes. -/
def event_code_to_string (event_type event_code : Nat) : String :=
  if event_type = EV_ABS then
    match scanAttr "ABS_" event_code with
    | some name => name
    | none => "ABS_" ++ toString event_code
  else if event_type = EV_KEY then
    match scanAttr "BTN_" event_code with
    | some name => name
    | none =>
      match scanAttr "KEY_" event_code with
      | some name => name
      | none => "KEY_" ++ toString event_code
  else if event_type = EV_REL then
    match scanAttr "REL_" event_code with
    | some name => name
    | none => "REL_" ++ toString event_code
  else if event_type = EV_SYN then
    match scanAttr "SYN_" event_code with
    | some name => name
    | none => "SYN_" ++ toString event_code
  else
    "TYPE_" ++ toString event_type ++ "_CODE_" ++ toString event_code

/-- The known symbolic names of a class prefix carrying a given code value. -/
def classNames (pre : String) (event_code : Nat) : List String :=
  (ecodesAttrs.filter (fun nv => pyStartsWith nv.1 pre && nv.2 == event_code)).map
    (fun nv => nv.1)

theorem scanAttr_none_iff (pre : String) (c : Nat) :
    scanAttr pre c = none ↔ classNames pre c = [] := by
  unfold scanAttr classNames
  rw [Option.map_eq_none', List.find?_eq_none, List.map_eq_nil_iff,
    List.filter_eq_nil_iff]

theorem scanAttr_mem {pre : String} {c : Nat} {name : String}
    (h : scanAttr pre c = some name) : name ∈ classNames pre c := by
  unfold scanAttr at h
  obtain ⟨nv, hf, hmap⟩ := Option.map_eq_some'.mp h
  refine List.mem_map.mpr ⟨nv, ?_, hmap⟩
  have hp := List.find?_some hf
  exact List.mem_filter.mpr ⟨List.mem_of_find?_eq_some hf, hp⟩

theorem ects_abs (c : Nat) : event_code_to_string EV_ABS c =
    match scanAttr "ABS_" c with
    | some name => name
    | none => "ABS_" ++ toString c := by
  unfold event_code_to_string
  rw [if_pos rfl]

theorem ects_key (c : Nat) : event_code_to_string EV_KEY c =
    match scanAttr "BTN_" c with
    | some name => name
    | none =>
      match scanAttr "KEY_" c with
      | some name => name
      | none => "KEY_" ++ toString c := by
  unfold event_code_to_string
  rw [if_neg (by decide), if_pos rfl]

theorem ects_rel (c : Nat) : event_code_to_string EV_REL c =
    match scanAttr "REL_" c with
    | some name => name
    | none => "REL_" ++ toString c := by
  unfold event_code_to_string
  rw [if_neg (by decide), if_neg (by decide), if_pos rfl]

theorem ects_syn (c : Nat) : event_code_to_string EV_SYN c =
    match scanAttr "SYN_" c with
    | some name => name
    | none => "SYN_" ++ toString c := by
  unfold event_code_to_string
  rw [if_neg (by decide), if_neg (by decide), if_neg (by decide), if_pos rfl]

/-- **C4 counterexample.** The pair `(EV_ABS, 9999)` has no known symbolic
name, yet the translation returns `"ABS_9999"`, not `"TYPE_3_CODE_9999"` as
the claim states. -/
theorem C4_counterexample :
    event_code_to_string 3 9999 = "ABS_9999" ∧
    event_code_to_string 3 9999 ≠ "TYPE_3_CODE_9999" := by
  constructor
  · rfl
  · decide

/-- **C4** (amended).  The host-side translation resolves the symbolic name
by reverse lookup over the known alphabet filtered by the event-type class;
for a pair in a known class (`EV_ABS`, `EV_KEY`, `EV_REL`, `EV_SYN`) with
no known symbolic name it returns the class-prefixed string
`ABS_<c>` / `KEY_<c>` / `REL_<c>` / `SYN_<c>` (with `EV_KEY` trying `BTN_`
names before `KEY_` names); only for a pair whose type is outside those
classes does it return `TYPE_<t>_CODE_<c>`. -/
theorem C4_code_translation (t c : Nat) :
    (t = EV_ABS →
      event_code_to_string t c ∈ classNames "ABS_" c ∨
      (classNames "ABS_" c = [] ∧
        event_code_to_string t c = "ABS_" ++ toString c)) ∧
    (t = EV_KEY →
      event_code_to_string t c ∈ classNames "BTN_" c ∨
      (classNames "BTN_" c = [] ∧
        (event_code_to_string t c ∈ classNames "KEY_" c ∨
          (classNames "KEY_" c = [] ∧
            event_code_to_string t c = "KEY_" ++ toString c)))) ∧
    (t = EV_REL →
      event_code_to_string t c ∈ classNames "REL_" c ∨
      (classNames "REL_" c = [] ∧
        event_code_to_string t c = "REL_" ++ toString c)) ∧
    (t = EV_SYN →
      event_code_to_string t c ∈ classNames "SYN_" c ∨
      (classNames "SYN_" c = [] ∧
        event_code_to_string t c = "SYN_" ++ toString c)) ∧
    (t ≠ EV_ABS → t ≠ EV_KEY → t ≠ EV_REL → t ≠ EV_SYN →
      event_code_to_string t c =
        "TYPE_" ++ toString t ++ "_CODE_" ++ toString c) := by
  refine ⟨?_, ?_, ?_, ?_, ?_⟩
  · rintro rfl
    rw [ects_abs]
    cases hsc : scanAttr "ABS_" c with
    | some name => exact Or.inl (scanAttr_mem hsc)
    | none => exact Or.inr ⟨(scanAttr_none_iff _ _).mp hsc, rfl⟩
  · rintro rfl
    rw [ects_key]
    cases hsc : scanAttr "BTN_" c with
    | some name => exact Or.inl (scanAttr_mem hsc)
    | none =>
      refine Or.inr ⟨(scanAttr_none_iff _ _).mp hsc, ?_⟩
      cases hsc2 : scanAttr "KEY_" c with
      | some name => exact Or.inl (scanAttr_mem hsc2)
      | none => exact Or.inr ⟨(scanAttr_none_iff _ _).mp hsc2, rfl⟩
  · rintro rfl
    rw [ects_rel]
    cases hsc : scanAttr "REL_" c with
    | some name => exact Or.inl (scanAttr_mem hsc)
    | none => exact Or.inr ⟨(scanAttr_none_iff _ _).mp hsc, rfl⟩
  · rintro rfl
    rw [ects_syn]
    cases hsc : scanAttr "SYN_" c with
    | some name => exact Or.inl (scanAttr_mem hsc)
    | none => exact Or.inr ⟨(scanAttr_none_iff _ _).mp hsc, rfl⟩
  · intro h1 h2 h3 h4
    unfold event_code_to_string
    rw [if_neg h1, if_neg h2, if_neg h3, if_neg h4]

/-- Witness for the amended C4 at the known pair `(EV_ABS, 0)` (`ABS_X`). -/
theorem C4_code_translation_witness :
    event_code_to_string 3 0 ∈ classNames "ABS_" 0 ∨
      (classNames "ABS_" 0 = [] ∧
        event_code_to_string 3 0 = "ABS_" ++ toString 0) :=
  (C4_code_translation 3 0).1 rfl

/-! ### `host_input.py`: the capture loop -/

/-- A raw evdev event as read in one iteration of the capture loop:
`event.type`, `event.code`, `event.value`, `event.timestamp()`, and the
`time.time()` value observed in that iteration. -/
structure RawEvent where
  etype : Nat
  ecode : Nat
  value : Int
  ts : ℚ
  now : ℚ
  deriving DecidableEq

/-- `host_input.InputEvent` (wire form of one event). -/
structure InputEvent where
  code : String
  value : Int
  timestamp : ℚ
  deriving DecidableEq

/-- The `InputEvent(...)` construction inside `_capture_loop`. -/
def rawToInput (e : RawEvent) : InputEvent :=
  ⟨event_code_to_string e.etype e.ecode, e.value, e.ts⟩

/-- Kernel-computable subtraction on `ℚ` (the library's `Rat.sub` is marked
irreducible, which would keep concrete witnesses from evaluating);
`ratSub_eq` proves it is exactly subtraction. -/
def ratSub (a b : ℚ) : ℚ := mkRat (a.num * b.den - b.num * a.den) (a.den * b.den)

/-- Kernel-computable multiplication on `ℚ`; `ratMul_eq` proves it is
exactly multiplication. -/
def ratMul (a b : ℚ) : ℚ := mkRat (a.num * b.num) (a.den * b.den)

theorem ratSub_eq (a b : ℚ) : ratSub a b = a - b := by
  unfold ratSub
  rw [Rat.mkRat_eq_div]
  have ha : (a.den : ℚ) ≠ 0 := by exact_mod_cast a.den_nz
  have hb : (b.den : ℚ) ≠ 0 := by exact_mod_cast b.den_nz
  push_cast
  conv_rhs => rw [← Rat.num_div_den a, ← Rat.num_div_den b]
  rw [div_sub_div _ _ ha hb]
  ring_nf

theorem ratMul_eq (a b : ℚ) : ratMul a b = a * b := by
  unfold ratMul
  rw [Rat.mkRat_eq_div]
  have ha : (a.den : ℚ) ≠ 0 := by exact_mod_cast a.den_nz
  have hb : (b.den : ℚ) ≠ 0 := by exact_mod_cast b.den_nz
  push_cast
  conv_rhs => rw [← Rat.num_div_den a, ← Rat.num_div_den b]
  rw [div_mul_div_comm]

/-- The locals of `_capture_loop` plus the batches already handed to the
event sink. -/
structure CaptureState where
  event_batch : List InputEvent
  last_batch_time : ℚ
  sent : List (String × List InputEvent)
  deriving DecidableEq

/-- The 10 ms batch timeout of `_capture_loop`. -/
def BATCH_TIMEOUT : ℚ := mkRat 1 100

/-- One iteration of the `for event in self.device.read_loop()` body:
append the converted event, then flush the batch to the callback if the
event is an `EV_SYN` or more than 10 ms have passed since the last flush. -/
def capture_step (device_type : String) (st : CaptureState) (e : RawEvent) :
    CaptureState :=
  if e.etype = EV_SYN ∨ ratSub e.now st.last_batch_time > BATCH_TIMEOUT then
    ⟨[], e.now, st.sent ++ [(device_type, st.event_batch ++ [rawToInput e])]⟩
  else
    ⟨st.event_batch ++ [rawToInput e], st.last_batch_time, st.sent⟩

/-- `InputCapture._capture_loop` over a finite stream of raw events from the
single owned device, returning the batches flushed to the event sink.
`t0` is the initial `last_batch_time = time.time()`. -/
def capture_loop (device_type : String) (t0 : ℚ) (events : List RawEvent) :
    List (String × List InputEvent) :=
  (events.foldl (capture_step device_type) ⟨[], t0, []⟩).sent

/-- A `SYN_REPORT` event, if present in a batch, is its last element. -/
def synReportLast (batch : List InputEvent) : Prop :=
  ∀ (i : Nat) (h : i < batch.length),
    (batch.get ⟨i, h⟩).code = "SYN_REPORT" → i + 1 = batch.length

/-- Every alphabet name with an `ABS_`/`BTN_`/`KEY_`/`REL_` prefix differs
from `"SYN_REPORT"`. -/
theorem attrs_prefix_ne :
    ∀ nv ∈ ecodesAttrs,
      (pyStartsWith nv.1 "ABS_" || pyStartsWith nv.1 "BTN_" ||
        pyStartsWith nv.1 "KEY_" || pyStartsWith nv.1 "REL_") = true →
      nv.1 ≠ "SYN_REPORT" := by decide

/-- A string starting (as a character list) with a character other than
`'S'` differs from `"SYN_REPORT"`. -/
theorem ne_syn_report_of_head {p x : String} {c : Char}
    (hd : p.data = c :: p.data.tail) (hc : c ≠ 'S') :
    p ++ x ≠ "SYN_REPORT" := by
  intro h
  have h2 := congrArg String.data h
  rw [String.data_append, hd, List.cons_append] at h2
  have h3 : "SYN_REPORT".data = 'S' :: "YN_REPORT".data := rfl
  rw [h3] at h2
  injection h2 with hhead _
  exact hc hhead

theorem scanAttr_ne_syn_report {pre : String} {c : Nat} {name : String}
    (hpre : pre = "ABS_" ∨ pre = "BTN_" ∨ pre = "KEY_" ∨ pre = "REL_")
    (h : scanAttr pre c = some name) : name ≠ "SYN_REPORT" := by
  unfold scanAttr at h
  obtain ⟨nv, hf, hmap⟩ := Option.map_eq_some'.mp h
  have hp := List.find?_some hf
  rw [Bool.and_eq_true] at hp
  subst hmap
  apply attrs_prefix_ne nv (List.mem_of_find?_eq_some hf)
  rcases hpre with rfl | rfl | rfl | rfl <;>
    simp [hp.1]

/-- Only type `EV_SYN` can translate to the string `"SYN_REPORT"`. -/
theorem etype_of_syn_report {t c : Nat}
    (h : event_code_to_string t c = "SYN_REPORT") : t = EV_SYN := by
  by_contra hne
  by_cases h3 : t = EV_ABS
  · subst h3
    rw [ects_abs] at h
    cases hsc : scanAttr "ABS_" c with
    | some name =>
      rw [hsc] at h
      exact scanAttr_ne_syn_report (Or.inl rfl) hsc h
    | none =>
      rw [hsc] at h
      exact ne_syn_report_of_head (p := "ABS_") rfl (by decide) h
  · by_cases h1 : t = EV_KEY
    · subst h1
      rw [ects_key] at h
      cases hsc : scanAttr "BTN_" c with
      | some name =>
        rw [hsc] at h
        exact scanAttr_ne_syn_report (Or.inr (Or.inl rfl)) hsc h
      | none =>
        rw [hsc] at h
        cases hsc2 : scanAttr "KEY_" c with
        | some name =>
          rw [hsc2] at h
          exact scanAttr_ne_syn_report (Or.inr (Or.inr (Or.inl rfl))) hsc2 h
        | none =>
          rw [hsc2] at h
          exact ne_syn_report_of_head (p := "KEY_") rfl (by decide) h
    · by_cases h2 : t = EV_REL
      · subst h2
        rw [ects_rel] at h
        cases hsc : scanAttr "REL_" c with
        | some name =>
          rw [hsc] at h
          exact scanAttr_ne_syn_report (Or.inr (Or.inr (Or.inr rfl))) hsc h
        | none =>
          rw [hsc] at h
          exact ne_syn_report_of_head (p := "REL_") rfl (by decide) h
      · have h4 : t ≠ EV_SYN := hne
        unfold event_code_to_string at h
        rw [if_neg h3, if_neg h1, if_neg h2, if_neg h4] at h
        have hd : ("TYPE_" ++ toString t ++ "_CODE_").data =
            'T' :: ("TYPE_" ++ toString t ++ "_CODE_").data.tail := by
          rw [String.data_append, String.data_append,
            (rfl : "TYPE_".data = 'T' :: "YPE_".data)]
          rfl
        exact ne_syn_report_of_head hd (by decide) h

theorem synReportLast_append {l : List InputEvent} {a : InputEvent}
    (h : ∀ x ∈ l, x.code ≠ "SYN_REPORT") : synReportLast (l ++ [a]) := by
  intro i hi hcode
  have hlen : (l ++ [a]).length = l.length + 1 := by simp
  by_cases hil : i < l.length
  · exfalso
    have hg : (l ++ [a]).get ⟨i, hi⟩ = l.get ⟨i, hil⟩ := List.get_append i hil
    exact h _ (List.get_mem l i hil) (hg ▸ hcode)
  · rw [hlen]
    rw [hlen] at hi
    omega

theorem capture_loop_inv (device_type : String) (ok : InputEvent → Prop) :
    ∀ (events : List RawEvent) (st : CaptureState),
      (∀ e ∈ events, ok (rawToInput e)) →
      (∀ ie ∈ st.event_batch, ok ie ∧ ie.code ≠ "SYN_REPORT") →
      (∀ p ∈ st.sent, p.1 = device_type ∧ synReportLast p.2 ∧ ∀ ie ∈ p.2, ok ie) →
      ∀ p ∈ (events.foldl (capture_step device_type) st).sent,
        p.1 = device_type ∧ synReportLast p.2 ∧ ∀ ie ∈ p.2, ok ie := by
  intro events
  induction events with
  | nil =>
    intro st _ _ hsent
    simpa using hsent
  | cons e es ih =>
    intro st hev hbatch hsent
    rw [List.foldl_cons]
    refine ih (capture_step device_type st e)
      (fun x hx => hev x (List.mem_cons_of_mem e hx)) ?_ ?_
    · unfold capture_step
      by_cases hcond : e.etype = EV_SYN ∨ ratSub e.now st.last_batch_time > BATCH_TIMEOUT
      · rw [if_pos hcond]
        intro ie hie
        exact absurd hie (List.not_mem_nil ie)
      · rw [if_neg hcond]
        intro ie hie
        have hie2 : ie ∈ st.event_batch ++ [rawToInput e] := hie
        rcases List.mem_append.mp hie2 with hold | hnew
        · exact hbatch ie hold
        · have heq : ie = rawToInput e := by simpa using hnew
          subst heq
          refine ⟨hev e (List.mem_cons_self e es), ?_⟩
          intro hcode
          exact hcond (Or.inl (etype_of_syn_report hcode))
    · unfold capture_step
      by_cases hcond : e.etype = EV_SYN ∨ ratSub e.now st.last_batch_time > BATCH_TIMEOUT
      · rw [if_pos hcond]
        intro p hp
        have hp2 : p ∈ st.sent ++
            [(device_type, st.event_batch ++ [rawToInput e])] := hp
        rcases List.mem_append.mp hp2 with hold | hnew
        · exact hsent p hold
        · have hpe : p = (device_type, st.event_batch ++ [rawToInput e]) := by
            simpa using hnew
          subst hpe
          refine ⟨rfl, synReportLast_append (fun x hx => (hbatch x hx).2), ?_⟩
          intro ie hie
          rcases List.mem_append.mp hie with h1 | h2
          · exact (hbatch ie h1).1
          · have heq : ie = rawToInput e := by simpa using h2
            subst heq
            exact hev e (List.mem_cons_self e es)
      · rw [if_neg hcond]
        exact hsent

/-- **C2.** Every batch flushed by the host capture loop to the event sink
is tagged with the single owned device's type (no batch mixes device
classes), contains only events from that device's stream, and if it
contains a `SYN_REPORT` event, that event is the last element of the
batch. -/
theorem C2_batch_atomicity (device_type : String) (t0 : ℚ)
    (events : List RawEvent) :
    ∀ p ∈ capture_loop device_type t0 events,
      p.1 = device_type ∧ synReportLast p.2 ∧
        ∀ ie ∈ p.2, ∃ e ∈ events, ie = rawToInput e :=
  capture_loop_inv device_type (fun ie => ∃ e ∈ events, ie = rawToInput e)
    events ⟨[], t0, []⟩ (fun e he => ⟨e, he, rfl⟩)
    (fun ie hie => absurd hie (List.not_mem_nil ie))
    (fun p hp => absurd hp (List.not_mem_nil p))

/-- A concrete two-event stream for the C2 witness: an `ABS_X` motion (no
flush) followed by a `SYN_REPORT` (flush). -/
def wEvents : List RawEvent :=
  [⟨3, 0, 5, mkRat 0 1, mkRat 0 1⟩, ⟨0, 0, 0, mkRat 0 1, mkRat 0 1⟩]

/-- Witness for C2 at a concrete stream: the single flushed batch ends in
its `SYN_REPORT`. -/
theorem C2_batch_atomicity_witness :
    ("wacom", [⟨"ABS_X", 5, mkRat 0 1⟩, ⟨"SYN_REPORT", 0, mkRat 0 1⟩])
        ∈ capture_loop "wacom" (mkRat 0 1) wEvents ∧
      synReportLast [⟨"ABS_X", 5, mkRat 0 1⟩, ⟨"SYN_REPORT", 0, mkRat 0 1⟩] :=
  ⟨by decide,
    (C2_batch_atomicity "wacom" (mkRat 0 1) wEvents
      ("wacom", [⟨"ABS_X", 5, mkRat 0 1⟩, ⟨"SYN_REPORT", 0, mkRat 0 1⟩])
      (by decide)).2.1⟩

/-! ### `consumer_device_emulation.py`: parsing and injection -/

/-- A wire event as received inside an `event` message:
`event.get('code', '')` and `event.get('value', 0)`. -/
structure WireEvent where
  code : String
  value : Int
  deriving DecidableEq

/-- `getattr(ecodes, code_str, None)`: direct attribute lookup by full name. -/
def getattrEcodes (code_str : String) : Option Nat :=
  (ecodesAttrs.find? (fun nv => nv.1 == code_str)).map (fun nv => nv.2)

/-- `WacomVirtualDevice._parse_event_code`: event-type class from the
prefix, code integer from the attribute table; unknown prefix or
unresolvable name yields `(None, None)`. -/
def parse_event_code (code_str : String) : Option (Nat × Nat) :=
  if pyStartsWith code_str "ABS_" then
    match getattrEcodes code_str with
    | some v => some (EV_ABS, v)
    | none => none
  else if pyStartsWith code_str "KEY_" || pyStartsWith code_str "BTN_" then
    match getattrEcodes code_str with
    | some v => some (EV_KEY, v)
    | none => none
  else if pyStartsWith code_str "REL_" then
    match getattrEcodes code_str with
    | some v => some (EV_REL, v)
    | none => none
  else if pyStartsWith code_str "SYN_" then
    match getattrEcodes code_str with
    | some v => some (EV_SYN, v)
    | none => none
  else none

/-- Observable effect trace of a `WacomVirtualDevice` during
`process_events`: the `uinput.write` calls, the logged warnings for
unparseable codes, and the number of `sync()` pulses. -/
structure DeviceLog where
  writes : List (Nat × Nat × Int)
  warnings : List String
  syncs : Nat
  deriving DecidableEq

/-- One iteration of the `for event in events` body of
`WacomVirtualDevice.process_events`. -/
def process_event_step (log : DeviceLog) (e : WireEvent) : DeviceLog :=
  match parse_event_code e.code with
  | some tc => ⟨log.writes ++ [(tc.1, tc.2, e.value)], log.warnings, log.syncs⟩
  | none => ⟨log.writes, log.warnings ++ [e.code], log.syncs⟩

/-- `WacomVirtualDevice.process_events`: process the batch event by event,
then `self.sync()` once. -/
def process_events (events : List WireEvent) : DeviceLog :=
  let log := events.foldl process_event_step ⟨[], [], 0⟩
  ⟨log.writes, log.warnings, log.syncs + 1⟩

/-- The `uinput.write` a wire event produces, when its code resolves. -/
def decodedWrite (e : WireEvent) : Option (Nat × Nat × Int) :=
  (parse_event_code e.code).map (fun tc => (tc.1, tc.2, e.value))

theorem process_events_foldl :
    ∀ (events : List WireEvent) (log : DeviceLog),
      events.foldl process_event_step log =
        ⟨log.writes ++ events.filterMap decodedWrite,
         log.warnings ++
           (events.filter (fun e => (parse_event_code e.code).isNone)).map
             (fun e => e.code),
         log.syncs⟩ := by
  intro events
  induction events with
  | nil =>
    intro log
    simp
  | cons e es ih =>
    intro log
    rw [List.foldl_cons]
    cases hpe : parse_event_code e.code with
    | some tc =>
      rw [ih]
      simp [process_event_step, decodedWrite, hpe, List.filterMap_cons,
        List.filter_cons]
    | none =>
      rw [ih]
      simp [process_event_step, decodedWrite, hpe, List.filterMap_cons,
        List.filter_cons]

/-- **C3.** For every received event batch containing an event whose code
string cannot be resolved, `process_events` skips exactly the unresolvable
events with a logged warning, writes every resolvable event of the batch to
the virtual device in order, and still emits the sync pulse after the
batch; the stream is not terminated (the function returns a full log). -/
theorem C3_unknown_code_tolerance (events : List WireEvent) (e : WireEvent)
    (hmem : e ∈ events) (hbad : parse_event_code e.code = none) :
    (process_events events).writes = events.filterMap decodedWrite ∧
    e.code ∈ (process_events events).warnings ∧
    (process_events events).syncs = 1 := by
  unfold process_events
  rw [process_events_foldl events ⟨[], [], 0⟩]
  refine ⟨by simp, ?_, rfl⟩
  show e.code ∈ [] ++ (events.filter
    (fun e => (parse_event_code e.code).isNone)).map (fun e => e.code)
  rw [List.nil_append]
  exact List.mem_map.mpr
    ⟨e, List.mem_filter.mpr ⟨hmem, by simp [hbad]⟩, rfl⟩

/-- Witness for C3: the S5 scenario — an `ABS_QUUX` event inside an
otherwise valid batch is skipped with a warning, the rest is written, the
sync pulse is still emitted. -/
theorem C3_unknown_code_tolerance_witness :
    (process_events
        [⟨"ABS_X", 500⟩, ⟨"ABS_QUUX", 1⟩, ⟨"SYN_REPORT", 0⟩]).writes =
      [⟨"ABS_X", 500⟩, ⟨"ABS_QUUX", 1⟩, ⟨"SYN_REPORT", 0⟩].filterMap
        decodedWrite ∧
    "ABS_QUUX" ∈ (process_events
        [⟨"ABS_X", 500⟩, ⟨"ABS_QUUX", 1⟩, ⟨"SYN_REPORT", 0⟩]).warnings ∧
    (process_events
        [⟨"ABS_X", 500⟩, ⟨"ABS_QUUX", 1⟩, ⟨"SYN_REPORT", 0⟩]).syncs = 1 :=
  C3_unknown_code_tolerance
    [⟨"ABS_X", 500⟩, ⟨"ABS_QUUX", 1⟩, ⟨"SYN_REPORT", 0⟩]
    ⟨"ABS_QUUX", 1⟩ (by decide) (by decide)

/-! ### `host_input.py`: `HostInputManager.start_capture` -/

/-- The device-touching side effects a `start_capture` attempt can have
(constructing `InputCapture(device_path)` and `capture.start(...)` opens
the device and reconfigures it). -/
inductive CaptureEffect where
  | openDevice (path : String)
  deriving DecidableEq

/-- `HostInputManager.start_capture`, with `active_captures` modelled by its
key list and the success of `InputCapture.start` (an OS interaction)
collapsed into the oracle `startOk`.  Returns the boolean result, the new
`active_captures` key list, and the device effects performed. -/
def start_capture (active_captures : List String) (device_path : String)
    (startOk : Bool) : Bool × List String × List CaptureEffect :=
  if device_path ∈ active_captures then
    (false, active_captures, [])
  else if startOk then
    (true, active_captures ++ [device_path],
      [CaptureEffect.openDevice device_path])
  else
    (false, active_captures, [CaptureEffect.openDevice device_path])

/-- **C7.** A `start_capture` call for a path already present in the
active-captures map returns `False` without touching the device and without
mutating the map; and every `start_capture` call preserves key uniqueness,
so at most one capture owns a given path at a time. -/
theorem C7_single_ownership (active : List String) (path : String)
    (startOk : Bool) (hbusy : path ∈ active) :
    start_capture active path startOk = (false, active, []) ∧
    ∀ (a : List String) (p : String) (k : Bool),
      a.Nodup → ((start_capture a p k).2.1).Nodup := by
  refine ⟨by rw [start_capture, if_pos hbusy], ?_⟩
  intro a p k hnd
  by_cases hmem : p ∈ a
  · rw [start_capture, if_pos hmem]
    exact hnd
  · by_cases hk : k = true
    · rw [start_capture, if_neg hmem, if_pos hk]
      show (a ++ [p]).Nodup
      rw [List.nodup_append]
      exact ⟨hnd, List.nodup_singleton p, by
        intro x hx hp
        have : x = p := by simpa using hp
        exact hmem (this ▸ hx)⟩
    · rw [start_capture, if_neg hmem, if_neg hk]
      exact hnd

/-- Witness for C7: a second capture of `/dev/input/event5` is rejected
with no state change and no device effect. -/
theorem C7_single_ownership_witness :
    start_capture ["/dev/input/event5"] "/dev/input/event5" true =
      (false, ["/dev/input/event5"], []) :=
  (C7_single_ownership ["/dev/input/event5"] "/dev/input/event5" true
    (by decide)).1

/-! ### `tray_app_unified.py`: staleness sweep -/

/-- `DISCOVERY_UPDATE_INTERVAL = 30.0` (seconds). -/
def DISCOVERY_UPDATE_INTERVAL : ℚ := mkRat 30 1

/-- `stale_timeout = DISCOVERY_UPDATE_INTERVAL * 2.5`. -/
def stale_timeout : ℚ := ratMul DISCOVERY_UPDATE_INTERVAL (mkRat 5 2)

/-- The `stale_keys` list comprehension of `check_stale_consumers`: keys of
`self.discovered_consumers` whose entry satisfies
`now - data.get('timestamp', 0) > stale_timeout`.  An entry is modelled by
its key and its `timestamp` field. -/
def stale_keys (now : ℚ) (discovered : List (String × ℚ)) : List String :=
  (discovered.filter (fun kv => ratSub now kv.2 > stale_timeout)).map
    (fun kv => kv.1)

/-- The `for key in stale_keys: del self.discovered_consumers[key]` loop:
after it, the table retains exactly the entries whose key is not stale. -/
def check_stale_consumers (now : ℚ) (discovered : List (String × ℚ)) :
    List (String × ℚ) :=
  discovered.filter (fun kv => !(stale_keys now discovered).contains kv.1)

/-- **C8.** At every staleness sweep, every entry whose last refresh
timestamp is older than 2.5 times the discovery refresh interval is
removed, so that peer is absent from the table the next menu snapshot is
built from. -/
theorem C8_staleness_eviction (now : ℚ) (discovered : List (String × ℚ))
    (k : String) (ts : ℚ) (hmem : (k, ts) ∈ discovered)
    (hstale : ratSub now ts > ratMul DISCOVERY_UPDATE_INTERVAL (mkRat 5 2)) :
    ∀ e ∈ check_stale_consumers now discovered, e.1 ≠ k := by
  intro e he heq
  unfold check_stale_consumers at he
  have hk : k ∈ stale_keys now discovered := by
    unfold stale_keys
    refine List.mem_map.mpr ⟨(k, ts), ?_, rfl⟩
    rw [List.mem_filter]
    exact ⟨hmem, by simpa [stale_timeout] using hstale⟩
  have h2 := (List.mem_filter.mp he).2
  rw [heq] at h2
  simp at h2
  exact h2 hk

/-- Witness for C8: with the 30 s interval, an entry 80 s old is evicted,
and the surviving fresh entry is not the stale key. -/
theorem C8_staleness_eviction_witness :
    ("peerB:3333", mkRat 90 1).1 ≠ "peerA:3333" :=
  C8_staleness_eviction (mkRat 100 1)
    [("peerA:3333", mkRat 20 1), ("peerB:3333", mkRat 90 1)]
    "peerA:3333" (mkRat 20 1) (by decide) (by decide)
    ("peerB:3333", mkRat 90 1) (by decide)

/-! ### `config_manager.py`: trusted-hosts registry -/

/-- One entry of `consumer.trusted_hosts`: a dict with keys `host_id` and
`auto_accept` read back via `.get` (so either may be absent). -/
structure TrustedHostEntry where
  host_id : Option String
  auto_accept : Option Bool
  deriving DecidableEq

/-- The `consumer` section of the configuration relevant to trust:
`trusted_hosts` (a dict keyed by host name) and the `auto_accept_trusted`
key, which `should_auto_accept_host` reads with `.get(..., False)`. -/
structure ConsumerConfig where
  trusted_hosts : List (String × TrustedHostEntry)
  auto_accept_trusted : Option Bool
  deriving DecidableEq

/-- `trusted.get(host_name)` on the trusted-hosts dict. -/
def getTrustedHost (cfg : ConsumerConfig) (host_name : String) :
    Option TrustedHostEntry :=
  (cfg.trusted_hosts.find? (fun kv => kv.1 == host_name)).map (fun kv => kv.2)

/-- `ConfigManager.is_host_trusted`: the host is listed and the stored
`host_id` equals the incoming one. -/
def is_host_trusted (cfg : ConsumerConfig) (host_name host_id : String) :
    Bool :=
  match getTrustedHost cfg host_name with
  | none => false
  | some e => e.host_id == some host_id

/-- Python truthiness of a trusted-host entry dict.  In this model an entry
dict is represented by which of its two recognised keys are present, so the
dict is empty — and falsy for Python's `if not host_config:` — exactly when
neither key is present. -/
def entryTruthy (e : TrustedHostEntry) : Bool :=
  e.host_id.isSome || e.auto_accept.isSome

/-- `ConfigManager.should_auto_accept_host`: `if not host_config:` — the
host being unlisted *or* its entry dict being empty (falsy) — falls back to
the global `consumer.auto_accept_trusted` setting (`.get` default `False`);
otherwise the host is governed by its own `auto_accept` flag. -/
def should_auto_accept_host (cfg : ConsumerConfig) (host_name : String) :
    Bool :=
  match getTrustedHost cfg host_name with
  | none => cfg.auto_accept_trusted.getD false
  | some e =>
    if entryTruthy e then e.auto_accept.getD false
    else cfg.auto_accept_trusted.getD false

/-- The `consumer` section of `ConfigManager.DEFAULT_CONFIG`:
`trusted_hosts: {}` and `auto_accept_trusted: True`. -/
def DEFAULT_CONSUMER_CONFIG : ConsumerConfig := ⟨[], some true⟩

/-- The silent auto-accept branch of the tray app's `auth_callback`
(`tray_app_unified.py`): accept without prompting exactly when the host is
trusted and should be auto-accepted; otherwise fall through to the
interactive approval path. -/
def auth_auto_accepts (cfg : ConsumerConfig) (host_name host_id : String) :
    Bool :=
  is_host_trusted cfg host_name host_id && should_auto_accept_host cfg host_name

/-- **C5.** A host recorded in the trusted-hosts registry under
`(name, id1)` is auto-accepted only when the incoming `host_id` equals the
stored `id1`: for every different `id2`, a handshake carrying `(name, id2)`
is not trusted and is not auto-accepted, falling through to the interactive
approval path. -/
theorem C5_trust_key_stability (cfg : ConsumerConfig) (name id1 id2 : String)
    (e : TrustedHostEntry) (hlk : getTrustedHost cfg name = some e)
    (hid : e.host_id = some id1) (hne : id2 ≠ id1) :
    is_host_trusted cfg name id2 = false ∧
    auth_auto_accepts cfg name id2 = false := by
  have h1 : is_host_trusted cfg name id2 = false := by
    unfold is_host_trusted
    rw [hlk]
    show (e.host_id == some id2) = false
    rw [hid, beq_eq_false_iff_ne]
    intro hc
    exact hne (Option.some.inj hc).symm
  refine ⟨h1, ?_⟩
  unfold auth_auto_accepts
  rw [h1, Bool.false_and]

/-- Witness for C5: a host trusted as `("alpha", "id-one")` presenting
`host_id = "id-two"` is not auto-accepted. -/
theorem C5_trust_key_stability_witness :
    is_host_trusted ⟨[("alpha", ⟨some "id-one", some true⟩)], some true⟩
        "alpha" "id-two" = false ∧
    auth_auto_accepts ⟨[("alpha", ⟨some "id-one", some true⟩)], some true⟩
        "alpha" "id-two" = false :=
  C5_trust_key_stability ⟨[("alpha", ⟨some "id-one", some true⟩)], some true⟩
    "alpha" "id-one" "id-two" ⟨some "id-one", some true⟩
    (by decide) rfl (by decide)

/-- **C10.** For every `host_name` absent from the trusted-hosts registry,
`should_auto_accept_host` returns the global `consumer.auto_accept_trusted`
setting (whose built-in default is `True`) rather than `False`; only hosts
present in the registry with a non-empty (truthy) entry are governed by
their per-host `auto_accept` flag — a present-but-empty entry, like an
absent host, also falls back to the global setting. -/
theorem C10_auto_accept_default (cfg : ConsumerConfig) (name : String)
    (habs : getTrustedHost cfg name = none) :
    should_auto_accept_host cfg name = cfg.auto_accept_trusted.getD false ∧
    DEFAULT_CONSUMER_CONFIG.auto_accept_trusted = some true ∧
    should_auto_accept_host
      ⟨cfg.trusted_hosts, DEFAULT_CONSUMER_CONFIG.auto_accept_trusted⟩
      name = true ∧
    (∀ (cfg2 : ConsumerConfig) (name2 : String) (e : TrustedHostEntry),
      getTrustedHost cfg2 name2 = some e → entryTruthy e = true →
      should_auto_accept_host cfg2 name2 = e.auto_accept.getD false) ∧
    (∀ (cfg2 : ConsumerConfig) (name2 : String) (e : TrustedHostEntry),
      getTrustedHost cfg2 name2 = some e → entryTruthy e = false →
      should_auto_accept_host cfg2 name2 =
        cfg2.auto_accept_trusted.getD false) := by
  refine ⟨?_, rfl, ?_, ?_, ?_⟩
  · unfold should_auto_accept_host
    rw [habs]
  · unfold should_auto_accept_host
    have habs2 : getTrustedHost
        ⟨cfg.trusted_hosts, DEFAULT_CONSUMER_CONFIG.auto_accept_trusted⟩
        name = none := habs
    rw [habs2]
    rfl
  · intro cfg2 name2 e hlk htruthy
    unfold should_auto_accept_host
    rw [hlk]
    show (if entryTruthy e then e.auto_accept.getD false
      else cfg2.auto_accept_trusted.getD false) = e.auto_accept.getD false
    rw [if_pos htruthy]
  · intro cfg2 name2 e hlk htruthy
    unfold should_auto_accept_host
    rw [hlk]
    show (if entryTruthy e then e.auto_accept.getD false
      else cfg2.auto_accept_trusted.getD false) =
      cfg2.auto_accept_trusted.getD false
    rw [htruthy, if_neg (by decide)]

/-- Witness for C10: an unknown host under the default config gets the
global setting; a host listed with the empty entry `{}` also gets the
global `True`; a host listed with a real entry is governed by its own
`auto_accept` flag. -/
theorem C10_auto_accept_default_witness :
    should_auto_accept_host DEFAULT_CONSUMER_CONFIG "unknown-host" =
      DEFAULT_CONSUMER_CONFIG.auto_accept_trusted.getD false ∧
    should_auto_accept_host
      ⟨DEFAULT_CONSUMER_CONFIG.trusted_hosts,
        DEFAULT_CONSUMER_CONFIG.auto_accept_trusted⟩ "unknown-host" = true ∧
    should_auto_accept_host ⟨[("h", ⟨none, none⟩)], some true⟩ "h" =
      (ConsumerConfig.mk [("h", ⟨none, none⟩)]
        (some true)).auto_accept_trusted.getD false ∧
    should_auto_accept_host ⟨[("h", ⟨some "i", some false⟩)], some true⟩ "h" =
      (TrustedHostEntry.mk (some "i") (some false)).auto_accept.getD false :=
  ⟨(C10_auto_accept_default DEFAULT_CONSUMER_CONFIG "unknown-host" rfl).1,
    (C10_auto_accept_default DEFAULT_CONSUMER_CONFIG "unknown-host" rfl).2.2.1,
    (C10_auto_accept_default DEFAULT_CONSUMER_CONFIG "unknown-host"
        rfl).2.2.2.2 ⟨[("h", ⟨none, none⟩)], some true⟩ "h" ⟨none, none⟩
      (by decide) (by decide),
    (C10_auto_accept_default DEFAULT_CONSUMER_CONFIG "unknown-host"
        rfl).2.2.2.1 ⟨[("h", ⟨some "i", some false⟩)], some true⟩ "h"
      ⟨some "i", some false⟩ (by decide) (by decide)⟩

/-! ### `transnetwork.py`: the consumer server's auth response (C9) -/

/-- An `auth_response` message as built by
`NetworkProtocol.create_auth_response`. -/
structure AuthResponse where
  msg_type : String
  accepted : Bool
  consumer_name : String
  consumer_id : String
  deriving DecidableEq

/-- `NetworkProtocol.create_auth_response`. -/
def create_auth_response (accepted : Bool)
    (consumer_name consumer_id : String) : AuthResponse :=
  ⟨"auth_response", accepted, consumer_name, consumer_id⟩

/-- Python truthiness of the `auth_callback` result (`None`, or a host-name
string, falsy when empty). -/
def truthy (r : Option String) : Bool :=
  match r with
  | none => false
  | some s => !(s == "")

/-- The auth response actually sent by `handle_client` inside
`TransNetwork.create_consumer_server`: `create_auth_response(
bool(accepted_host_name), socket.gethostname(), "consumer_id_placeholder")`
— the `consumer_id` is the hard-coded placeholder string, with the source's
own comment `# Should come from config`. -/
def handle_client_auth_response (accepted_host_name : Option String)
    (gethostname : String) : AuthResponse :=
  create_auth_response (truthy accepted_host_name) gethostname
    "consumer_id_placeholder"

/-- **C9** (code bug).  Whatever the handshake outcome and hostname, the
`consumer_id` field the consumer sends is the literal
`"consumer_id_placeholder"`, which cannot equal any 16-character machine
fingerprint (`_get_machine_fingerprint` returns
`sha256(...).hexdigest()[:16]`, a 16-character string); on accept the
response does carry `accepted = true` and the consumer's name. -/
theorem C9_consumer_id_placeholder (accepted_host_name : Option String)
    (gethostname fp : String) (hfp : fp.length = 16) :
    (handle_client_auth_response accepted_host_name gethostname).consumer_id =
      "consumer_id_placeholder" ∧
    (handle_client_auth_response accepted_host_name gethostname).consumer_id ≠
      fp ∧
    (handle_client_auth_response (some "alpha") gethostname).accepted = true ∧
    (handle_client_auth_response accepted_host_name
      gethostname).consumer_name = gethostname := by
  refine ⟨rfl, ?_, rfl, rfl⟩
  intro h
  have h2 : ("consumer_id_placeholder" : String) = fp := h
  have h3 := congrArg String.length h2
  rw [hfp] at h3
  exact absurd h3 (by decide)

/-- Witness for C9 at a concrete 16-character fingerprint. -/
theorem C9_consumer_id_placeholder_witness :
    (handle_client_auth_response (some "alpha") "consumer-host").consumer_id =
      "consumer_id_placeholder" ∧
    (handle_client_auth_response (some "alpha") "consumer-host").consumer_id ≠
      "a1b2c3d4e5f60718" ∧
    (handle_client_auth_response (some "alpha") "consumer-host").accepted =
      true ∧
    (handle_client_auth_response (some "alpha") "consumer-host").consumer_name =
      "consumer-host" :=
  C9_consumer_id_placeholder (some "alpha") "consumer-host" "a1b2c3d4e5f60718"
    (by decide)

end Transwacom
